import Mathlib

/-
Verification of the taproot-assets (taro) protocol engine against its
natural-language specification.

The development shallowly embeds the relevant source files:
  * the commitment layer (commitment/taro.go),
  * the universe identifier/leaf/proof model (universe.go),
  * the outbound-parcel send states (tarofreighter/parcel.go).

Byte strings are `List Nat` (each entry a byte value), machine integers are
`Nat` with explicit reductions where the source truncates, and Go pointers to
asset commitments are explicit indices into a store (`Store`) so that
mutation-through-aliasing is representable.  SHA-256 is implemented
executably.  Components of the repository that are referenced by the sources
but whose own code is not available (the `mssmt` tree package and the inner
`AssetCommitment` type) are modelled from the specification; their doc
comments say so explicitly.
-/

namespace TaroSpec

/-- A byte string: a list of byte values. -/
abbrev Bytes := List Nat

/-- Big-endian 4-byte encoding of a 32-bit word. -/
def be32 (n : Nat) : Bytes :=
  [n / 16777216 % 256, n / 65536 % 256, n / 256 % 256, n % 256]

/-- Big-endian 8-byte encoding of a 64-bit word, as produced by Go
`binary.BigEndian.PutUint64`. -/
def be64 (n : Nat) : Bytes :=
  [n / 72057594037927936 % 256, n / 281474976710656 % 256,
   n / 1099511627776 % 256, n / 4294967296 % 256,
   n / 16777216 % 256, n / 65536 % 256, n / 256 % 256, n % 256]

/-- Little-endian 4-byte encoding of a 32-bit word, as produced by Go
`wire.WriteOutPoint` for the outpoint index. -/
def le32 (n : Nat) : Bytes :=
  [n % 256, n / 256 % 256, n / 65536 % 256, n / 16777216 % 256]

/-- Reduction modulo 2^32, making 32-bit overflow explicit. -/
def mod32 (n : Nat) : Nat := n % 4294967296

/-- 32-bit right rotation. -/
def rotr32 (n x : Nat) : Nat := mod32 ((x >>> n) ||| (x <<< (32 - n)))

/-- Three-way xor. -/
def xor3 (a b c : Nat) : Nat := (a ^^^ b) ^^^ c

/-- SHA-256 upper sigma functions: `bigSigma 2 13 22` is Σ0 and
`bigSigma 6 11 25` is Σ1. -/
def bigSigma (r1 r2 r3 x : Nat) : Nat :=
  xor3 (rotr32 r1 x) (rotr32 r2 x) (rotr32 r3 x)

/-- SHA-256 lower sigma functions: `lowSigma 7 18 3` is σ0 and
`lowSigma 17 19 10` is σ1. -/
def lowSigma (r1 r2 s x : Nat) : Nat :=
  xor3 (rotr32 r1 x) (rotr32 r2 x) (x >>> s)

/-- SHA-256 choice function. -/
def chF (e f g : Nat) : Nat := (e &&& f) ^^^ ((e ^^^ 4294967295) &&& g)

/-- SHA-256 majority function. -/
def majF (a b c : Nat) : Nat := xor3 (a &&& b) (a &&& c) (b &&& c)

/-- The first 64 primes, from which FIPS 180-4 derives the SHA-256
constants. -/
def sha2Primes : List Nat :=
  [2, 3, 5, 7, 11, 13, 17, 19, 23, 29, 31, 37, 41, 43, 47, 53, 59, 61, 67,
   71, 73, 79, 83, 89, 97, 101, 103, 107, 109, 113, 127, 131, 137, 139, 149,
   151, 157, 163, 167, 173, 179, 181, 191, 193, 197, 199, 211, 223, 227, 229,
   233, 239, 241, 251, 257, 263, 269, 271, 277, 281, 283, 293, 307, 311]

/-- Integer cube root by fuelled binary search; the invariant is
`lo³ ≤ n < hi³`. -/
def icbrtAux (n : Nat) : Nat → Nat → Nat → Nat
  | 0, lo, _ => lo
  | fuel + 1, lo, hi =>
      if hi ≤ lo + 1 then lo
      else if ((lo + hi) / 2) * ((lo + hi) / 2) * ((lo + hi) / 2) ≤ n then
        icbrtAux n fuel ((lo + hi) / 2) hi
      else icbrtAux n fuel lo ((lo + hi) / 2)

/-- Integer cube root. -/
def icbrt (n : Nat) : Nat := icbrtAux n (n + 2) 0 (n + 1)

/-- The 64 SHA-256 round constants: the first 32 bits of the fractional parts
of the cube roots of the first 64 primes (FIPS 180-4 §4.2.2), computed as
`⌊2⁹⁶·p⌋^(1/3) mod 2³²`.  The resulting list equals the usual literal
table. -/
def shaK : List Nat :=
  sha2Primes.map
    (fun p => icbrt (79228162514264337593543950336 * p) % 4294967296)

/-- The SHA-256 initial state: the first 32 bits of the fractional parts of
the square roots of the first 8 primes (FIPS 180-4 §5.3.3). -/
def shaH0 : List Nat :=
  (sha2Primes.take 8).map
    (fun p => Nat.sqrt (18446744073709551616 * p) % 4294967296)

/-- Group bytes into big-endian 32-bit words. -/
def toWords : Bytes → List Nat
  | b0 :: b1 :: b2 :: b3 :: rest =>
      (((b0 * 256 + b1) * 256 + b2) * 256 + b3) :: toWords rest
  | _ => []

/-- Message-schedule extension; `ws` holds the words produced so far, most
recent first. -/
def extendW : Nat → List Nat → List Nat
  | 0, ws => ws
  | n + 1, ws =>
      extendW n
        (mod32 (lowSigma 17 19 10 (ws.getD 1 0) + ws.getD 6 0 +
          lowSigma 7 18 3 (ws.getD 14 0) + ws.getD 15 0) :: ws)

/-- The 64-word message schedule of one block. -/
def schedule (block : List Nat) : List Nat := (extendW 48 block.reverse).reverse

/-- One SHA-256 compression round on the eight-word working state. -/
def roundStep (st : List Nat) (wk : Nat) : List Nat :=
  match st with
  | [a, b, c, d, e, f, g, h] =>
      let t1 := mod32 (h + bigSigma 6 11 25 e + chF e f g + wk)
      let t2 := mod32 (bigSigma 2 13 22 a + majF a b c)
      [mod32 (t1 + t2), a, b, c, mod32 (d + t1), e, f, g]
  | other => other

/-- Process one 16-word block. -/
def processBlock (st : List Nat) (block : List Nat) : List Nat :=
  let ws := schedule block
  let wks := ws.zipWith (fun w k => mod32 (w + k)) shaK
  let st2 := wks.foldl roundStep st
  st.zipWith (fun x y => mod32 (x + y)) st2

/-- Split a byte string into 64-byte chunks (fuelled recursion; the fuel is
the length of the list, which always suffices). -/
def toBlocksF : Nat → Bytes → List Bytes
  | 0, _ => []
  | _, [] => []
  | fuel + 1, bs => bs.take 64 :: toBlocksF fuel (bs.drop 64)

/-- Split a byte string into 64-byte chunks. -/
def toBlocks (bs : Bytes) : List Bytes := toBlocksF bs.length bs

/-- SHA-256 padding: append 0x80, zeros, and the 64-bit bit length. -/
def padMsg (msg : Bytes) : Bytes :=
  let len := msg.length
  let k := (119 - len % 64) % 64
  msg ++ [128] ++ List.replicate k 0 ++ be64 (8 * len)

/-- Executable SHA-256 over byte strings.  Checked against the FIPS 180-4
test vectors for the empty message and for the three-byte message
`61 62 63`. -/
def sha256 (msg : Bytes) : Bytes :=
  let blocks := (toBlocks (padMsg msg)).map toWords
  let finalSt := blocks.foldl processBlock shaH0
  finalSt.foldr (fun w acc => be32 w ++ acc) []

/-! ### Association-list helpers

Go maps (and the key-addressed MS-SMT contents) are modelled as association
lists from 32-byte keys to values, updated in place. -/

/-- Insert or overwrite the binding of `k`. -/
def updateAssoc {α : Type} : List (Bytes × α) → Bytes → α → List (Bytes × α)
  | [], k, v => [(k, v)]
  | e :: rest, k, v =>
      if e.1 = k then (k, v) :: rest else e :: updateAssoc rest k v

/-- Remove every binding of `k`. -/
def removeAssoc {α : Type} (l : List (Bytes × α)) (k : Bytes) :
    List (Bytes × α) :=
  l.filter (fun e => decide (e.1 ≠ k))

/-- Look up the binding of `k`. -/
def lookupAssoc {α : Type} : List (Bytes × α) → Bytes → Option α
  | [], _ => none
  | e :: rest, k => if e.1 = k then some e.2 else lookupAssoc rest k

/-- Look up in an optional map; a `none` map behaves like Go reads from a nil
map: every lookup misses. -/
def mlookup {α : Type} (m : Option (List (Bytes × α))) (k : Bytes) :
    Option α :=
  match m with
  | none => none
  | some l => lookupAssoc l k

namespace Mssmt

/-- Modelled from the spec: an MS-SMT node summary, `(hash, sum)`.  The
`mssmt` package of the repository is not among the provided sources; §4.A of
the specification fixes the node shape. -/
structure Node where
  hash : Bytes
  sum : Nat
deriving DecidableEq

/-- Modelled from the spec: an MS-SMT leaf, `LeafNode(value_bytes, sum)`. -/
structure LeafNode where
  value : Bytes
  sum : Nat
deriving DecidableEq

/-- Modelled from the spec: the node summary of a leaf; the leaf hash digests
the value followed by the big-endian sum. -/
def LeafNode.node (l : LeafNode) : Node :=
  { hash := sha256 (l.value ++ be64 l.sum), sum := l.sum }

/-- Modelled from the spec: branch hash
`H(L.hash ∥ L.sum ∥ R.hash ∥ R.sum)` with `sum = L.sum + R.sum` (§4.A). -/
def branchNode (l r : Node) : Node :=
  { hash := sha256 (l.hash ++ be64 l.sum ++ r.hash ++ be64 r.sum),
    sum := l.sum + r.sum }

/-- Modelled from the spec: the empty leaf `LeafNode(nil, 0)`. -/
def emptyLeafNode : Node := LeafNode.node { value := [], sum := 0 }

/-- Modelled from the spec: the empty-subtree table; `emptyNodeAt d` is the
root of an empty subtree with `d` levels below it (§4.A). -/
def emptyNodeAt : Nat → Node
  | 0 => emptyLeafNode
  | d + 1 =>
      let n := emptyNodeAt d
      branchNode n n

/-- Modelled from the spec: `EmptyTreeRootHash`, the hash of the root of the
empty depth-256 tree. -/
def EmptyTreeRootHash : Bytes := (emptyNodeAt 256).hash

/-- The eight bits of a byte, most significant first. -/
def byteBits (b : Nat) : List Bool :=
  [b / 128 % 2 == 1, b / 64 % 2 == 1, b / 32 % 2 == 1, b / 16 % 2 == 1,
   b / 8 % 2 == 1, b / 4 % 2 == 1, b / 2 % 2 == 1, b % 2 == 1]

/-- The bits of a 32-byte key, most significant first (the root-to-leaf walk
order of §4.A). -/
def keyBits (k : Bytes) : List Bool :=
  k.foldr (fun b acc => byteBits b ++ acc) []

/-- Keep the entries whose next key bit is `b`, consuming that bit. -/
def halfEntries (b : Bool) (entries : List (List Bool × Node)) :
    List (List Bool × Node) :=
  entries.filterMap (fun e =>
    match e.1 with
    | [] => none
    | b2 :: bs => if b2 = b then some (bs, e.2) else none)

/-- Modelled from the spec: the root of the sparse tree holding `entries`,
with `r` levels remaining; empty subtrees use the precomputed table. -/
def rootAux : Nat → List (List Bool × Node) → Node
  | r, [] => emptyNodeAt r
  | 0, e :: _ => e.2
  | r + 1, entries =>
      branchNode (rootAux r (halfEntries false entries))
        (rootAux r (halfEntries true entries))

/-- The root node of an MS-SMT whose contents are the given key-to-leaf
association list. -/
def treeRootOf (t : List (Bytes × LeafNode)) : Node :=
  rootAux 256 (t.map (fun e => (keyBits e.1, e.2.node)))

/-- Modelled from the spec: `MerkleProof(k)`, the 256 sibling nodes on the
path of `k`, ordered root-to-leaf (§4.A). -/
def proofAux : Nat → List (List Bool × Node) → List Bool → List Node
  | 0, _, _ => []
  | _ + 1, _, [] => []
  | r + 1, entries, b :: bs =>
      rootAux r (halfEntries (!b) entries) :: proofAux r (halfEntries b entries) bs

/-- The merkle proof for key `k` in the tree `t`. -/
def merkleProofOf (t : List (Bytes × LeafNode)) (k : Bytes) : List Node :=
  proofAux 256 (t.map (fun e => (keyBits e.1, e.2.node))) (keyBits k)

/-- Modelled from the spec: `Proof.Root` reconstructs the root from the
claimed leaf by re-hashing upward along the key bits, pairing each level with
its sibling (siblings ordered root-to-leaf, §4.A). -/
def proofRoot (siblings : List Node) (key : Bytes) (leaf : LeafNode) : Node :=
  ((keyBits key).zip siblings).foldr
    (fun p cur => if p.1 then branchNode p.2 cur else branchNode cur p.2)
    leaf.node

/-- Modelled from the spec: `mssmt.IsEqualNode`, comparing node hash and node
sum. -/
def isEqualNode (a b : Node) : Bool :=
  decide (a.hash = b.hash) && decide (a.sum = b.sum)

end Mssmt

namespace Commitment

/-- Modelled from the spec: the inner `AssetCommitment` (commitment/asset.go
is not among the provided sources).  It records the asset version, the asset
ID, the optional x-only group key, and the contents of the inner MS-SMT keyed
by asset-commitment key (§3, §4.B). -/
structure AssetCommitment where
  version : Nat
  assetID : Bytes
  groupKey : Option Bytes
  assets : List (Bytes × Mssmt.LeafNode)
deriving DecidableEq

/-- Modelled from the spec: the inner tree root of an asset commitment. -/
def AssetCommitment.treeRoot (ac : AssetCommitment) : Mssmt.Node :=
  Mssmt.treeRootOf ac.assets

/-- Modelled from the spec (§4.B): the Taroot-Asset-commitment key is the
group-key digest if the asset is grouped, else the asset ID. -/
def AssetCommitment.taroCommitmentKey (ac : AssetCommitment) : Bytes :=
  match ac.groupKey with
  | some g => sha256 g
  | none => ac.assetID

/-- Modelled from the spec: the outer leaf of an asset commitment,
`asset_version ∥ asset_tree_root ∥ asset_sum` with the inner sum as leaf
sum (commitment/taro.go documents this layout). -/
def AssetCommitment.taroCommitmentLeaf (ac : AssetCommitment) :
    Mssmt.LeafNode :=
  { value := [ac.version % 256] ++ ac.treeRoot.hash ++ be64 ac.treeRoot.sum,
    sum := ac.treeRoot.sum }

/-- Modelled from the spec: inner `AssetCommitment.Merge`, a per-asset union
upserting every asset of `src` into `dst` (§4.C). -/
def AssetCommitment.mergeVal (dst src : AssetCommitment) : AssetCommitment :=
  { dst with
    assets := src.assets.foldl (fun as e => updateAssoc as e.1 e.2) dst.assets }

/-- The store of allocated asset commitments; a Go pointer to an
`AssetCommitment` is an index into it. -/
abbrev Store := List AssetCommitment

/-- Dereference an asset-commitment pointer. -/
def readAC (σ : Store) (i : Nat) : Option AssetCommitment := σ.get? i

/-- Dereference a list of pointers, failing if any is invalid. -/
def readAll (σ : Store) : List Nat → Option (List AssetCommitment)
  | [] => some []
  | i :: rest =>
      match readAC σ i, readAll σ rest with
      | some v, some vs => some (v :: vs)
      | _, _ => none

/-- The pointers `start, start+1, …, start+n-1` of freshly allocated
commitments. -/
def freshIds : Nat → Nat → List Nat
  | _, 0 => []
  | start, n + 1 => start :: freshIds (start + 1) n

/-- The outer Taro commitment (commitment/taro.go).  `tree` and
`assetCommitments` are `none` exactly when the commitment was constructed
root-only via `NewTaroCommitmentWithRoot`, mirroring the nil fields in Go. -/
structure TaroCommitment where
  version : Nat
  treeRoot : Mssmt.Node
  tree : Option (List (Bytes × Mssmt.LeafNode))
  assetCommitments : Option (List (Bytes × Nat))
deriving DecidableEq

/-- Commitment-layer errors. -/
inductive CErr where
  /-- `ErrMissingAssetCommitment`. -/
  | missingAssetCommitment
  /-- `cannot merge commitments without asset commitments`. -/
  | cannotMergeRootOnly
  /-- An error wrapped by `Merge` when an upsert of the other commitment
  fails. -/
  | mergeUpsert (e : CErr)
deriving DecidableEq

/-- The outcome of a commitment operation: a value, a returned error, or a
Go runtime panic (nil-pointer / nil-map use). -/
inductive COut (α : Type) where
  | ok (a : α)
  | err (e : CErr)
  | panicked
deriving DecidableEq

/-- `NewTaroCommitment` (commitment/taro.go): build both layers from a list
of asset commitments, taking the maximum version, inserting every outer leaf,
and recording the commitments keyed by their Taro commitment key. -/
def NewTaroCommitment (σ : Store) (ids : List Nat) : Option TaroCommitment :=
  match readAll σ ids with
  | none => none
  | some vals =>
      let pairs := ids.zip vals
      let maxVer := pairs.foldl (fun v p => max v p.2.version) 0
      let t := pairs.foldl
        (fun t p => updateAssoc t p.2.taroCommitmentKey p.2.taroCommitmentLeaf)
        ([] : List (Bytes × Mssmt.LeafNode))
      let m := pairs.foldl
        (fun m p => updateAssoc m p.2.taroCommitmentKey p.1)
        ([] : List (Bytes × Nat))
      some { version := maxVer, treeRoot := Mssmt.treeRootOf t,
             tree := some t, assetCommitments := some m }

/-- `NewTaroCommitmentWithRoot` (commitment/taro.go): a root-only commitment
with nil tree and nil asset-commitment map. -/
def NewTaroCommitmentWithRoot (version : Nat) (root : Mssmt.Node) :
    TaroCommitment :=
  { version := version, treeRoot := root, tree := none,
    assetCommitments := none }

/-- `TaroMarker`: `SHA256("taro")` (commitment/taro.go); `74 61 72 6f` is
the UTF-8 encoding of the tag `taro`. -/
def taroMarkerTag : Bytes := [0x74, 0x61, 0x72, 0x6f]

/-- The static marker identifying Taro commitment leaves. -/
def TaroMarker : Bytes := sha256 taroMarkerTag

/-- `TaroCommitmentScriptSize` (commitment/taro.go): version byte, marker,
root hash, root sum. -/
def TaroCommitmentScriptSize : Nat := 1 + 32 + 32 + 8

/-- `TaroCommitment.TapLeaf` (commitment/taro.go): the leaf script is the
join of the version byte, the marker, the root hash, and the big-endian root
sum. -/
def TaroCommitment.TapLeaf (c : TaroCommitment) : Bytes :=
  [c.version % 256] ++ TaroMarker ++ c.treeRoot.hash ++ be64 c.treeRoot.sum

/-- `TaroCommitment.Upsert` (commitment/taro.go): a nil argument is an error;
an argument whose inner root is the empty-tree root is pruned (tree delete
plus map delete), otherwise its outer leaf is inserted and the map updated;
finally the cached root is refreshed.  Tree method calls on a root-only
commitment (nil tree) and insertion into a nil map panic, as in Go.  The
spec's `IntegerOverflow` failure of the underlying tree insert cannot occur
here because sums are unbounded `Nat`. -/
def TaroCommitment.Upsert (σ : Store) (c : TaroCommitment) (a : Option Nat) :
    COut TaroCommitment :=
  match a with
  | none => .err .missingAssetCommitment
  | some aid =>
      match readAC σ aid with
      | none => .panicked
      | some ac =>
          let key := ac.taroCommitmentKey
          if ac.treeRoot.hash = Mssmt.EmptyTreeRootHash then
            match c.tree with
            | none => .panicked
            | some t =>
                let t2 := removeAssoc t key
                .ok { c with tree := some t2,
                             treeRoot := Mssmt.treeRootOf t2,
                             assetCommitments :=
                               c.assetCommitments.map
                                 (fun m => removeAssoc m key) }
          else
            match c.tree with
            | none => .panicked
            | some t =>
                let t2 := updateAssoc t key ac.taroCommitmentLeaf
                match c.assetCommitments with
                | none => .panicked
                | some m =>
                    .ok { c with tree := some t2,
                                 treeRoot := Mssmt.treeRootOf t2,
                                 assetCommitments :=
                                   some (updateAssoc m key aid) }

/-- `TaroCommitment.Delete` (commitment/taro.go): a nil argument is an error;
otherwise the entry at the argument's key is deleted from the tree and the
map and the cached root refreshed.  A nil tree panics; deleting from a nil
map is a no-op, as in Go. -/
def TaroCommitment.Delete (σ : Store) (c : TaroCommitment) (a : Option Nat) :
    COut TaroCommitment :=
  match a with
  | none => .err .missingAssetCommitment
  | some aid =>
      match readAC σ aid with
      | none => .panicked
      | some ac =>
          let key := ac.taroCommitmentKey
          match c.tree with
          | none => .panicked
          | some t =>
              let t2 := removeAssoc t key
              .ok { c with tree := some t2,
                           treeRoot := Mssmt.treeRootOf t2,
                           assetCommitments :=
                             c.assetCommitments.map
                               (fun m => removeAssoc m key) }

/-- `TaroCommitment.Copy` (commitment/taro.go): with no asset commitments
only the root is copied (yielding a root-only commitment); otherwise every
asset commitment is deep-copied (fresh store slots) and the commitment is
rebuilt with `NewTaroCommitment`. -/
def TaroCommitment.Copy (σ : Store) (c : TaroCommitment) :
    Store × Option TaroCommitment :=
  match c.assetCommitments with
  | none =>
      (σ, some { version := c.version, treeRoot := c.treeRoot, tree := none,
                 assetCommitments := none })
  | some m =>
      if m = [] then
        (σ, some { version := c.version, treeRoot := c.treeRoot,
                   tree := none, assetCommitments := none })
      else
        match readAll σ (m.map (fun e => e.2)) with
        | none => (σ, none)
        | some vals =>
            (σ ++ vals,
             NewTaroCommitment (σ ++ vals) (freshIds σ.length vals.length))

/-- One iteration of the `Merge` loop (commitment/taro.go) for the entry
`(key, otherAid)` of the other commitment: if the receiver already holds the
key, the other's commitment is copied and merged into the existing one
in place; otherwise the other's commitment is taken as is.  Either way a
copy of the resulting commitment is allocated and upserted into the
receiver. -/
def mergeStep (σ : Store) (c : TaroCommitment) (key : Bytes)
    (otherAid : Nat) : Store × COut TaroCommitment :=
  match readAC σ otherAid with
  | none => (σ, .panicked)
  | some otherVal =>
      match mlookup c.assetCommitments key with
      | some existingAid =>
          match readAC (σ ++ [otherVal]) existingAid with
          | none => (σ ++ [otherVal], .panicked)
          | some existingVal =>
              ((σ ++ [otherVal]).set existingAid
                  (AssetCommitment.mergeVal existingVal otherVal) ++
                 [AssetCommitment.mergeVal existingVal otherVal],
               TaroCommitment.Upsert
                 ((σ ++ [otherVal]).set existingAid
                     (AssetCommitment.mergeVal existingVal otherVal) ++
                    [AssetCommitment.mergeVal existingVal otherVal])
                 c
                 (some ((σ ++ [otherVal]).set existingAid
                     (AssetCommitment.mergeVal existingVal otherVal)).length))
      | none =>
          (σ ++ [otherVal], TaroCommitment.Upsert (σ ++ [otherVal]) c
            (some σ.length))

/-- The `Merge` loop over the other commitment's asset-commitment entries,
stopping at the first error (wrapped as in the source) or panic. -/
def mergeLoop (σ : Store) (c : TaroCommitment) :
    List (Bytes × Nat) → Store × COut TaroCommitment
  | [] => (σ, .ok c)
  | (key, aid) :: rest =>
      match mergeStep σ c key aid with
      | (σ2, .ok c2) => mergeLoop σ2 c2 rest
      | (σ2, .err e) => (σ2, .err (.mergeUpsert e))
      | (σ2, .panicked) => (σ2, .panicked)

/-- `TaroCommitment.Merge` (commitment/taro.go): an error if the other
commitment was constructed root-only (nil asset commitments), a no-op if the
other commitment is empty, otherwise the per-key merge loop. -/
def TaroCommitment.Merge (σ : Store) (c other : TaroCommitment) :
    Store × COut TaroCommitment :=
  match other.assetCommitments with
  | none => (σ, .err .cannotMergeRootOnly)
  | some m => if m = [] then (σ, .ok c) else mergeLoop σ c m

/-- The outer (Taro-level) half of a commitment proof. -/
structure TaroProof where
  proof : List Mssmt.Node
  version : Nat
deriving DecidableEq

/-- The inner (asset-level) half of a commitment proof. -/
structure AssetProofPart where
  proof : List Mssmt.Node
  version : Nat
  assetID : Bytes
deriving DecidableEq

/-- A commitment-layer proof: always an outer proof, optionally an inner
one. -/
structure CProof where
  taroProof : TaroProof
  assetProof : Option AssetProofPart
deriving DecidableEq

/-- The outcome of `TaroCommitment.Proof`: a panic, or an optional asset
leaf together with the proof. -/
inductive POut where
  | panicked
  | ok (a : Option Mssmt.LeafNode) (p : CProof)
deriving DecidableEq

/-- `TaroCommitment.Proof` (commitment/taro.go): panics when the commitment
has no asset commitments or no tree (the root-only construction); otherwise
computes the outer merkle proof, and when the outer key is present also the
inner asset lookup and proof. -/
def TaroCommitment.Proof (σ : Store) (c : TaroCommitment)
    (taroCommitmentKey assetCommitmentKey : Bytes) : POut :=
  match c.assetCommitments, c.tree with
  | some m, some t =>
      let merkleProof := Mssmt.merkleProofOf t taroCommitmentKey
      match lookupAssoc m taroCommitmentKey with
      | none =>
          .ok none { taroProof := { proof := merkleProof, version := c.version },
                     assetProof := none }
      | some aid =>
          match readAC σ aid with
          | none => .panicked
          | some ac =>
              let a := lookupAssoc ac.assets assetCommitmentKey
              let assetProof := Mssmt.merkleProofOf ac.assets assetCommitmentKey
              .ok a { taroProof := { proof := merkleProof, version := c.version },
                      assetProof := some { proof := assetProof,
                                           version := ac.version,
                                           assetID := ac.assetID } }
  | _, _ => .panicked

/-- The tree rebuilt by `NewTaroCommitment` from a list of asset-commitment
values, in order. -/
def buildTree (vals : List AssetCommitment) :
    List (Bytes × Mssmt.LeafNode) :=
  vals.foldl
    (fun t ac => updateAssoc t ac.taroCommitmentKey ac.taroCommitmentLeaf) []

/-- The maximum version of a list of asset-commitment values, starting from
`asset.V0 = 0` as the source does. -/
def maxVersionOf (vals : List AssetCommitment) : Nat :=
  vals.foldl (fun v ac => max v ac.version) 0

/-- A full (non-root-only) Taro commitment is well formed when its cached
tree, root and version are the ones determined by the stored asset
commitments — exactly the state `NewTaroCommitment` establishes. -/
def WFFull (σ : Store) (c : TaroCommitment) : Prop :=
  ∃ m vals, c.assetCommitments = some m ∧
    readAll σ (m.map (fun e => e.2)) = some vals ∧
    c.tree = some (buildTree vals) ∧
    c.treeRoot = Mssmt.treeRootOf (buildTree vals) ∧
    c.version = maxVersionOf vals

end Commitment

namespace Univ

/-- Modelled from the spec: the fields of `asset.Asset` the universe layer
consumes (the asset package is not among the provided sources).  Whether an
asset is a genesis (issuance) asset is determined by its witness chain; the
predicate is abstracted as a field. -/
structure Asset where
  isGenesisAsset : Bool
  amount : Nat
deriving DecidableEq

/-- `ProofType` (universe.go): the kind of proof stored in a universe. -/
inductive ProofType where
  | unspecified
  | issuance
  | transfer
  | ignore
  | burn
  | mintSupply
deriving DecidableEq

/-- Universe-layer errors. -/
inductive UErr where
  /-- `asset is nil`. -/
  | assetNil
  /-- `proof type mismatch: expected …, got …`. -/
  | proofTypeMismatch (expected got : ProofType)
deriving DecidableEq

/-- `Identifier` (universe.go): asset ID or group key, plus the proof
type. -/
structure Identifier where
  assetID : Bytes
  groupKey : Option Bytes
  proofType : ProofType
deriving DecidableEq

/-- `NewProofTypeFromAsset` (universe.go): nil assets are an error; genesis
assets map to the issuance proof type and every other asset to the transfer
proof type. -/
def NewProofTypeFromAsset : Option Asset → Except UErr ProofType
  | none => .error .assetNil
  | some a => if a.isGenesisAsset then .ok .issuance else .ok .transfer

/-- `ValidateProofUniverseType` (universe.go): derive the expected proof type
from the asset and require it to equal the identifier's proof type. -/
def ValidateProofUniverseType (a : Option Asset) (uniID : Identifier) :
    Option UErr :=
  match NewProofTypeFromAsset a with
  | .error e => some e
  | .ok expected =>
      if expected ≠ uniID.proofType then
        some (.proofTypeMismatch expected uniID.proofType)
      else none

/-- `Leaf` (universe.go): a universe leaf with its raw proof, asset, amount,
and burn marker. -/
structure Leaf where
  rawProof : Bytes
  asset : Asset
  amt : Nat
  isBurn : Bool
deriving DecidableEq

/-- `Leaf.SmtLeafNode` (universe.go): the MS-SMT leaf carries the raw proof
bytes; for leaves that are neither genesis assets nor burns the sum is set to
1 so the tree counts transfers. -/
def Leaf.SmtLeafNode (m : Leaf) : Mssmt.LeafNode :=
  let amount := if !m.asset.isGenesisAsset && !m.isBurn then 1 else m.amt
  { value := m.rawProof, sum := amount }

/-- `BaseLeafKey` (universe.go): outpoint plus script key. -/
structure BaseLeafKey where
  outPointTxid : Bytes
  outPointIndex : Nat
  scriptKey : Bytes
deriving DecidableEq

/-- `BaseLeafKey.UniverseKey` (universe.go):
`sha256(mintingOutpoint ∥ scriptKey)` with the outpoint serialized as txid
followed by the little-endian index, as `wire.WriteOutPoint` does. -/
def BaseLeafKey.UniverseKey (b : BaseLeafKey) : Bytes :=
  sha256 (b.outPointTxid ++ le32 b.outPointIndex ++ b.scriptKey)

/-- `Proof` (universe.go): a universe leaf with its key and the universe and
multiverse roots and inclusion proofs. -/
structure Proof where
  leaf : Leaf
  leafKey : BaseLeafKey
  universeRoot : Mssmt.Node
  universeInclusionProof : List Mssmt.Node
  multiverseRoot : Mssmt.Node
  multiverseInclusionProof : List Mssmt.Node
deriving DecidableEq

/-- `Proof.VerifyRoot` (universe.go): reconstruct the universe root from the
leaf, the leaf key and the inclusion proof, and require both the carried
root and the reconstructed root to equal the expected root. -/
def Proof.VerifyRoot (i : Proof) (expectedRoot : Mssmt.Node) : Bool :=
  let leafNode := i.leaf.SmtLeafNode
  let reconstructedRoot :=
    Mssmt.proofRoot i.universeInclusionProof i.leafKey.UniverseKey leafNode
  Mssmt.isEqualNode i.universeRoot expectedRoot &&
    Mssmt.isEqualNode reconstructedRoot expectedRoot

end Univ

namespace Freighter

/-- `SendState` (tarofreighter/parcel.go): the nine states of an outbound
parcel, in order. -/
inductive SendState where
  | virtualCommitmentSelect
  | virtualSign
  | anchorSign
  | logCommit
  | broadcast
  | waitTxConf
  | storeProofs
  | receiverProofTransfer
  | complete
deriving DecidableEq

/-- The numeric value of a send state; the Go type is a `uint8` enum built
with `iota`, so `SendStateVirtualCommitmentSelect = 0` through
`SendStateComplete = 8`. -/
def SendState.toNat : SendState → Nat
  | .virtualCommitmentSelect => 0
  | .virtualSign => 1
  | .anchorSign => 2
  | .logCommit => 3
  | .broadcast => 4
  | .waitTxConf => 5
  | .storeProofs => 6
  | .receiverProofTransfer => 7
  | .complete => 8

/-- The Go zero value of `SendState`: the zero value of a `uint8` enum is 0,
which is the first `iota` constant, `SendStateVirtualCommitmentSelect`. -/
def SendState.goZero : SendState := .virtualCommitmentSelect

/-- Modelled from the spec: the parts of a virtual packet
(`taropsbt.VPacket`, not among the provided sources) the parcel layer
stores. -/
structure VPacket where
  outputs : List Bytes
deriving DecidableEq

/-- `sendPackage` (tarofreighter/parcel.go), restricted to the fields the
parcel constructors set: the send state, the virtual packet and the input
commitment.  Fields omitted from a Go struct literal take their zero value
(`nil` for the pointers, `SendState.goZero` for the state). -/
structure SendPackage where
  sendState : SendState
  virtualPacket : Option VPacket
  inputCommitment : Option Commitment.TaroCommitment

/-- `AddressParcel` (tarofreighter/parcel.go): a transfer request to a list
of addresses (addresses are opaque here). -/
structure AddressParcel where
  destAddrs : List Bytes

/-- `PreSignedParcel` (tarofreighter/parcel.go): a pre-signed virtual
transaction together with its input commitment. -/
structure PreSignedParcel where
  vPkt : VPacket
  inputCommitment : Commitment.TaroCommitment

/-- `AddressParcel.pkg` (tarofreighter/parcel.go): the struct literal
`&sendPackage{Parcel: p}` leaves every other field at its zero value, so the
send state is the zero state. -/
def AddressParcel.pkg (_p : AddressParcel) : SendPackage :=
  { sendState := SendState.goZero, virtualPacket := none,
    inputCommitment := none }

/-- `PreSignedParcel.pkg` (tarofreighter/parcel.go): the package starts at
`SendStateAnchorSign` and carries the signed virtual packet and the input
commitment. -/
def PreSignedParcel.pkg (p : PreSignedParcel) : SendPackage :=
  { sendState := SendState.anchorSign, virtualPacket := some p.vPkt,
    inputCommitment := some p.inputCommitment }

end Freighter

/-! ### Concrete inputs used by the witness theorems -/

/-- A Taro commitment with a literal 32-byte root hash. -/
def c1w : Commitment.TaroCommitment :=
  { version := 0, treeRoot := { hash := List.replicate 32 0, sum := 5 },
    tree := none, assetCommitments := none }

/-- A non-genesis asset. -/
def a9w : Univ.Asset := { isGenesisAsset := false, amount := 0 }

/-- An asset commitment with an empty inner tree (its root hash is the
empty-tree root hash). -/
def ac2w : Commitment.AssetCommitment :=
  { version := 0, assetID := List.replicate 32 3, groupKey := none,
    assets := [] }

/-- A store holding only `ac2w`. -/
def σ2w : Commitment.Store := [ac2w]

/-- A full (non-root-only) Taro commitment with no entries. -/
def c2w : Commitment.TaroCommitment :=
  { version := 0, treeRoot := { hash := [], sum := 0 }, tree := some [],
    assetCommitments := some [] }

/-- A full Taro commitment with no entries (receiver/argument for the Merge
claims). -/
def c3full : Commitment.TaroCommitment :=
  { version := 0, treeRoot := { hash := [], sum := 0 }, tree := some [],
    assetCommitments := some [] }

/-- A root-only Taro commitment. -/
def c3root : Commitment.TaroCommitment :=
  Commitment.NewTaroCommitmentWithRoot 0 { hash := [], sum := 0 }

/-- A full Taro commitment with no entries, for the Proof witness. -/
def c8w : Commitment.TaroCommitment :=
  { version := 0, treeRoot := { hash := [], sum := 0 }, tree := some [],
    assetCommitments := some [] }

/-- An asset commitment with one inner entry, for the Copy witness. -/
def ac4w : Commitment.AssetCommitment :=
  { version := 0, assetID := List.replicate 32 7, groupKey := none,
    assets := [(List.replicate 32 9, { value := [1], sum := 5 })] }

/-- A store holding only `ac4w`. -/
def σ4w : Commitment.Store := [ac4w]

/-- The asset-commitment map of the Copy witness commitment. -/
def m4w : List (Bytes × Nat) := [(ac4w.taroCommitmentKey, 0)]

/-- The well-formed commitment holding `ac4w`, exactly as `NewTaroCommitment`
builds it. -/
def c4w : Commitment.TaroCommitment :=
  { version := Commitment.maxVersionOf [ac4w],
    treeRoot := Mssmt.treeRootOf (Commitment.buildTree [ac4w]),
    tree := some (Commitment.buildTree [ac4w]),
    assetCommitments := some m4w }

/-- Two distinct asset commitments for the Merge frame witness. -/
def acA : Commitment.AssetCommitment :=
  { version := 0, assetID := List.replicate 32 4, groupKey := none,
    assets := [] }

/-- Second asset commitment for the Merge frame witness. -/
def acB : Commitment.AssetCommitment :=
  { version := 0, assetID := List.replicate 32 5, groupKey := none,
    assets := [] }

/-- A store holding `acA` and `acB`. -/
def σ10w : Commitment.Store := [acA, acB]

/-- The receiver of the Merge frame witness, holding `acA`. -/
def c10c : Commitment.TaroCommitment :=
  { version := 0, treeRoot := { hash := [], sum := 0 }, tree := some [],
    assetCommitments := some [(acA.taroCommitmentKey, 0)] }

/-- The argument of the Merge frame witness, holding `acB`. -/
def c10o : Commitment.TaroCommitment :=
  { version := 0, treeRoot := { hash := [], sum := 0 }, tree := some [],
    assetCommitments := some [(acB.taroCommitmentKey, 1)] }

/-- A universe identifier with the burn proof type. -/
def id9w : Univ.Identifier :=
  { assetID := [], groupKey := none, proofType := Univ.ProofType.burn }

/-! ### Helper lemmas -/

theorem isEqualNode_iff (a b : Mssmt.Node) :
    Mssmt.isEqualNode a b = true ↔ a = b := by
  cases a; cases b
  simp [Mssmt.isEqualNode, Mssmt.Node.mk.injEq]

theorem lookupAssoc_removeAssoc {α : Type} (l : List (Bytes × α)) (k : Bytes) :
    lookupAssoc (removeAssoc l k) k = none := by
  induction l with
  | nil => rfl
  | cons e rest ih =>
      by_cases h : e.1 = k
      · simpa [removeAssoc, List.filter_cons, h] using ih
      · simpa [removeAssoc, List.filter_cons, h, lookupAssoc] using ih

theorem freshIds_length : ∀ (n s : Nat), (Commitment.freshIds s n).length = n := by
  intro n
  induction n with
  | zero => intro s; rfl
  | succ k ih => intro s; simp [Commitment.freshIds, ih]

theorem readAll_append_fresh :
    ∀ (vals : List Commitment.AssetCommitment) (σ : Commitment.Store),
      Commitment.readAll (σ ++ vals)
          (Commitment.freshIds σ.length vals.length) = some vals := by
  intro vals
  induction vals with
  | nil => intro σ; rfl
  | cons v vs ih =>
      intro σ
      have h1 : Commitment.readAC (σ ++ v :: vs) σ.length = some v := by
        unfold Commitment.readAC
        rw [List.get?_append_right (Nat.le_refl _)]
        simp
      have h2 : Commitment.readAll (σ ++ v :: vs)
          (Commitment.freshIds (σ.length + 1) vs.length) = some vs := by
        have h3 := ih (σ ++ [v])
        rw [List.length_append, List.length_singleton] at h3
        rw [List.append_assoc] at h3
        simpa using h3
      simp only [List.length_cons, Commitment.freshIds, Commitment.readAll,
        h1, h2]

theorem foldl_zip_snd {γ : Type} (f : γ → Commitment.AssetCommitment → γ) :
    ∀ (ids : List Nat) (vals : List Commitment.AssetCommitment),
      ids.length = vals.length → ∀ (init : γ),
        (ids.zip vals).foldl (fun acc p => f acc p.2) init =
          vals.foldl f init := by
  intro ids
  induction ids with
  | nil =>
      intro vals h init
      cases vals with
      | nil => rfl
      | cons v vs => simp at h
  | cons i is ih =>
      intro vals h init
      cases vals with
      | nil => simp at h
      | cons v vs =>
          simp only [List.zip_cons_cons, List.foldl_cons]
          exact ih vs (by simpa using h) (f init v)

theorem foldl_zip_max (ids : List Nat) (vals : List Commitment.AssetCommitment)
    (h : ids.length = vals.length) :
    (ids.zip vals).foldl (fun v p => max v p.2.version) 0 =
      Commitment.maxVersionOf vals :=
  foldl_zip_snd (fun v ac => max v ac.version) ids vals h 0

theorem foldl_zip_tree (ids : List Nat) (vals : List Commitment.AssetCommitment)
    (h : ids.length = vals.length) :
    (ids.zip vals).foldl
        (fun t p => updateAssoc t p.2.taroCommitmentKey p.2.taroCommitmentLeaf)
        [] =
      Commitment.buildTree vals :=
  foldl_zip_snd
    (fun t ac => updateAssoc t ac.taroCommitmentKey ac.taroCommitmentLeaf)
    ids vals h []

theorem readAC_append (σ : Commitment.Store)
    (xs : List Commitment.AssetCommitment) (i : Nat) (h : i < σ.length) :
    Commitment.readAC (σ ++ xs) i = Commitment.readAC σ i := by
  unfold Commitment.readAC
  exact List.get?_append h

theorem readAC_set_ne (σ : Commitment.Store) (j : Nat)
    (v : Commitment.AssetCommitment) (i : Nat) (h : j ≠ i) :
    Commitment.readAC (σ.set j v) i = Commitment.readAC σ i := by
  unfold Commitment.readAC
  exact List.get?_set_ne v σ h

theorem mem_updateAssoc {α : Type} (l : List (Bytes × α)) (k : Bytes) (v : α)
    (e : Bytes × α) (h : e ∈ updateAssoc l k v) : e ∈ l ∨ e = (k, v) := by
  induction l with
  | nil =>
      right
      simpa [updateAssoc] using h
  | cons e2 rest ih =>
      rw [updateAssoc] at h
      split at h
      · rcases List.mem_cons.mp h with h1 | h1
        · right; exact h1
        · left; exact List.mem_cons_of_mem _ h1
      · rcases List.mem_cons.mp h with h1 | h1
        · left; exact h1 ▸ List.mem_cons_self _ _
        · rcases ih h1 with h2 | h2
          · left; exact List.mem_cons_of_mem _ h2
          · right; exact h2

theorem lookupAssoc_mem {α : Type} (l : List (Bytes × α)) (k : Bytes) (v : α)
    (h : lookupAssoc l k = some v) : (k, v) ∈ l := by
  induction l with
  | nil => simp [lookupAssoc] at h
  | cons e rest ih =>
      rw [lookupAssoc] at h
      split at h
      · next he =>
          obtain rfl := Option.some.inj h
          exact List.mem_cons.mpr (Or.inl (by rw [← he]))
      · next he => exact List.mem_cons_of_mem _ (ih h)

theorem Upsert_ids (σ : Commitment.Store) (c : Commitment.TaroCommitment)
    (aid : Nat) (c2 : Commitment.TaroCommitment)
    (h : c.Upsert σ (some aid) = Commitment.COut.ok c2)
    (m2 : List (Bytes × Nat)) (hm2 : c2.assetCommitments = some m2) :
    ∀ e ∈ m2, (∃ m, c.assetCommitments = some m ∧ e ∈ m) ∨ e.2 = aid := by
  intro e he
  cases hr : Commitment.readAC σ aid with
  | none =>
      simp only [Commitment.TaroCommitment.Upsert, hr] at h
      exact Commitment.COut.noConfusion h
  | some ac =>
      cases ht : c.tree with
      | none =>
          simp only [Commitment.TaroCommitment.Upsert, hr, ht] at h
          rw [ite_self] at h
          exact Commitment.COut.noConfusion h
      | some t =>
          cases hcm : c.assetCommitments with
          | none =>
              simp only [Commitment.TaroCommitment.Upsert, hr, ht, hcm] at h
              split at h
              · have hc2 := Commitment.COut.ok.inj h
                rw [← hc2] at hm2
                simp at hm2
              · exact Commitment.COut.noConfusion h
          | some m =>
              simp only [Commitment.TaroCommitment.Upsert, hr, ht, hcm] at h
              split at h
              · have hc2 := Commitment.COut.ok.inj h
                rw [← hc2] at hm2
                simp only [Option.map_some', Option.some.injEq] at hm2
                left
                refine ⟨m, rfl, ?_⟩
                rw [← hm2] at he
                exact List.mem_of_mem_filter he
              · have hc2 := Commitment.COut.ok.inj h
                rw [← hc2] at hm2
                simp only [Option.some.injEq] at hm2
                rw [← hm2] at he
                rcases mem_updateAssoc m _ aid e he with h1 | h1
                · left; exact ⟨m, rfl, h1⟩
                · right; rw [h1]

theorem mergeStep_len (σ : Commitment.Store) (c : Commitment.TaroCommitment)
    (key : Bytes) (aid : Nat) :
    σ.length ≤ (Commitment.mergeStep σ c key aid).1.length := by
  unfold Commitment.mergeStep
  split
  · exact Nat.le_refl _
  · split
    · split
      · simp
      · dsimp only
        simp only [List.length_append, List.length_set, List.length_singleton]
        omega
    · simp

theorem mergeStep_frame (σ : Commitment.Store) (c : Commitment.TaroCommitment)
    (key : Bytes) (aid : Nat) (i : Nat) (hlt : i < σ.length)
    (hdisj : ∀ m, c.assetCommitments = some m → ∀ e ∈ m, e.2 ≠ i) :
    Commitment.readAC (Commitment.mergeStep σ c key aid).1 i =
      Commitment.readAC σ i := by
  unfold Commitment.mergeStep
  split
  · rfl
  · rename_i otherVal hro
    split
    · rename_i existingAid hml
      have heid : existingAid ≠ i := by
        cases hcm : c.assetCommitments with
        | none => rw [hcm] at hml; simp [mlookup] at hml
        | some m =>
            rw [hcm] at hml
            simp only [mlookup] at hml
            exact hdisj m hcm (key, existingAid)
              (lookupAssoc_mem m key existingAid hml)
      split
      · exact readAC_append σ [otherVal] i hlt
      · rename_i existingVal hre
        dsimp only
        have h1 : i < ((σ ++ [otherVal]).set existingAid
            (Commitment.AssetCommitment.mergeVal existingVal otherVal)).length := by
          simp only [List.length_set, List.length_append, List.length_singleton]
          omega
        rw [readAC_append _ _ i h1, readAC_set_ne _ _ _ i heid,
          readAC_append σ [otherVal] i hlt]
    · exact readAC_append σ [otherVal] i hlt

theorem mergeStep_ok_ids (σ : Commitment.Store) (c : Commitment.TaroCommitment)
    (key : Bytes) (aid : Nat) (σ2 : Commitment.Store)
    (c2 : Commitment.TaroCommitment)
    (h : Commitment.mergeStep σ c key aid = (σ2, Commitment.COut.ok c2))
    (m2 : List (Bytes × Nat)) (hm2 : c2.assetCommitments = some m2) :
    ∀ e ∈ m2, (∃ m, c.assetCommitments = some m ∧ e ∈ m) ∨ σ.length ≤ e.2 := by
  intro e he
  unfold Commitment.mergeStep at h
  split at h
  · have h2 := congrArg Prod.snd h
    exact absurd h2 (by simp)
  · rename_i otherVal hro
    split at h
    · rename_i existingAid hml
      split at h
      · have h2 := congrArg Prod.snd h
        exact absurd h2 (by simp)
      · rename_i existingVal hre
        have h2 := congrArg Prod.snd h
        dsimp only at h2
        rcases Upsert_ids _ c _ c2 h2 m2 hm2 e he with hOld | hEq
        · left; exact hOld
        · right
          rw [hEq]
          simp only [List.length_set, List.length_append, List.length_singleton]
          omega
    · rename_i hml
      have h2 := congrArg Prod.snd h
      dsimp only at h2
      rcases Upsert_ids _ c _ c2 h2 m2 hm2 e he with hOld | hEq
      · left; exact hOld
      · right; omega

theorem mergeLoop_frame :
    ∀ (l : List (Bytes × Nat)) (σ : Commitment.Store)
      (c : Commitment.TaroCommitment) (i : Nat),
      i < σ.length →
      (∀ m, c.assetCommitments = some m → ∀ e ∈ m, e.2 ≠ i) →
      Commitment.readAC (Commitment.mergeLoop σ c l).1 i =
        Commitment.readAC σ i := by
  intro l
  induction l with
  | nil => intro σ c i hlt hdisj; rfl
  | cons kv rest ih =>
      intro σ c i hlt hdisj
      obtain ⟨key, aid⟩ := kv
      have hframe := mergeStep_frame σ c key aid i hlt hdisj
      have hlen := mergeStep_len σ c key aid
      rw [Commitment.mergeLoop]
      cases hstep : Commitment.mergeStep σ c key aid with
      | mk σ2 out =>
          rw [hstep] at hframe hlen
          cases out with
          | ok c2 =>
              dsimp only
              have hdisj2 : ∀ m, c2.assetCommitments = some m →
                  ∀ e ∈ m, e.2 ≠ i := by
                intro m2 hm2 e he
                rcases mergeStep_ok_ids σ c key aid σ2 c2 hstep m2 hm2 e he with
                  ⟨m, hm, hmem⟩ | hge
                · exact hdisj m hm e hmem
                · omega
              have hlt2 : i < σ2.length := Nat.lt_of_lt_of_le hlt hlen
              rw [ih σ2 c2 i hlt2 hdisj2]
              exact hframe
          | err e2 => exact hframe
          | panicked => exact hframe

/-! ### Claims -/

/-- C1: for every TaroCommitment `c` (whose cached root hash has the 32 bytes
a SHA-256 digest has), the tapscript-leaf script is the concatenation
`version(1) ∥ TaroMarker(32) ∥ root_hash(32) ∥ root_sum_be64(8)` with
`TaroMarker = SHA256("taro")`, and its length is exactly 73 bytes. -/
theorem claim1_tapLeaf (c : Commitment.TaroCommitment)
    (h : c.treeRoot.hash.length = 32) :
    c.TapLeaf =
        [c.version % 256] ++ Commitment.TaroMarker ++ c.treeRoot.hash ++
          be64 c.treeRoot.sum ∧
      Commitment.TaroMarker = sha256 Commitment.taroMarkerTag ∧
      Commitment.TaroMarker.length = 32 ∧
      c.TapLeaf.length = Commitment.TaroCommitmentScriptSize ∧
      Commitment.TaroCommitmentScriptSize = 73 := by
  have hm : Commitment.TaroMarker.length = 32 := by decide
  refine ⟨rfl, rfl, hm, ?_, rfl⟩
  simp [Commitment.TaroCommitment.TapLeaf, Commitment.TaroCommitmentScriptSize,
    h, hm, be64]

/-- Witness for C1 at a concrete commitment. -/
theorem claim1_witness :
    c1w.treeRoot.hash.length = 32 ∧
      c1w.TapLeaf.length = Commitment.TaroCommitmentScriptSize :=
  ⟨by decide, (claim1_tapLeaf c1w (by decide)).2.2.2.1⟩

/-- C2: upserting an asset commitment whose inner tree root hashes to the
empty-tree root hash is exactly deleting that entry: the resulting
commitment equals the one `Delete` produces, and the entry is removed from
both the outer MS-SMT and the in-memory commitment map. -/
theorem claim2_upsert_empty_is_delete (σ : Commitment.Store)
    (c : Commitment.TaroCommitment) (aid : Nat)
    (ac : Commitment.AssetCommitment) (t : List (Bytes × Mssmt.LeafNode))
    (m : List (Bytes × Nat))
    (h1 : Commitment.readAC σ aid = some ac)
    (h2 : ac.treeRoot.hash = Mssmt.EmptyTreeRootHash)
    (h3 : c.tree = some t) (h4 : c.assetCommitments = some m) :
    c.Upsert σ (some aid) = c.Delete σ (some aid) ∧
      c.Upsert σ (some aid) =
        Commitment.COut.ok
          { c with tree := some (removeAssoc t ac.taroCommitmentKey),
                   treeRoot :=
                     Mssmt.treeRootOf (removeAssoc t ac.taroCommitmentKey),
                   assetCommitments :=
                     some (removeAssoc m ac.taroCommitmentKey) } ∧
      lookupAssoc (removeAssoc t ac.taroCommitmentKey)
          ac.taroCommitmentKey = none ∧
      lookupAssoc (removeAssoc m ac.taroCommitmentKey)
          ac.taroCommitmentKey = none := by
  refine ⟨?_, ?_, lookupAssoc_removeAssoc t _, lookupAssoc_removeAssoc m _⟩
  · simp only [Commitment.TaroCommitment.Upsert, Commitment.TaroCommitment.Delete,
      h1, h2, h3, h4, if_true, eq_self_iff_true]
  · simp only [Commitment.TaroCommitment.Upsert, h1, h2, h3, h4, if_true,
      eq_self_iff_true, Option.map_some']

/-- Witness for C2 at a concrete store, commitment, and empty-rooted inner
commitment. -/
theorem claim2_witness :
    Commitment.readAC σ2w 0 = some ac2w ∧
      ac2w.treeRoot.hash = Mssmt.EmptyTreeRootHash ∧
      c2w.tree = some [] ∧ c2w.assetCommitments = some [] ∧
      c2w.Upsert σ2w (some 0) = c2w.Delete σ2w (some 0) :=
  ⟨rfl, rfl, rfl, rfl,
    (claim2_upsert_empty_is_delete σ2w c2w 0 ac2w [] [] rfl rfl rfl rfl).1⟩

/-- C3 counterexample: a root-only receiver merged with a full (but empty)
commitment does not produce the cannot-merge error — `Merge` only inspects
the argument, so the call succeeds as a no-op even though the receiver lost
its tree. -/
theorem claim3_counterexample :
    c3root.tree = none ∧ c3root.assetCommitments = none ∧
      c3full.tree = some [] ∧ c3full.assetCommitments = some [] ∧
      (Commitment.TaroCommitment.Merge [] c3root c3full).2 =
        Commitment.COut.ok c3root ∧
      (Commitment.TaroCommitment.Merge [] c3root c3full).2 ≠
        Commitment.COut.err Commitment.CErr.cannotMergeRootOnly := by
  refine ⟨rfl, rfl, rfl, rfl, rfl, ?_⟩
  intro h
  exact Commitment.COut.noConfusion h

/-- C3 (amended): `Merge` rejects precisely a root-only argument: whenever
the argument commitment has no asset-commitment map, `Merge` returns the
cannot-merge error and leaves the store (and hence both commitments)
untouched.  A root-only receiver is not checked: merging a full argument
into it is a no-op when the argument is empty (see the counterexample) and a
nil-tree panic otherwise. -/
theorem claim3_merge_rootonly_err (σ : Commitment.Store)
    (c other : Commitment.TaroCommitment)
    (h : other.assetCommitments = none) :
    Commitment.TaroCommitment.Merge σ c other =
      (σ, Commitment.COut.err Commitment.CErr.cannotMergeRootOnly) := by
  unfold Commitment.TaroCommitment.Merge
  rw [h]

/-- Witness for C3's amended theorem at a concrete pair. -/
theorem claim3_witness :
    c3root.assetCommitments = none ∧
      Commitment.TaroCommitment.Merge [] c3full c3root =
        ([], Commitment.COut.err Commitment.CErr.cannotMergeRootOnly) :=
  ⟨rfl, claim3_merge_rootonly_err [] c3full c3root rfl⟩

/-- C8: computing a merkle proof on a commitment constructed root-only
panics (for any pair of keys), and the panic branch is unreachable for
commitments that retain their full tree (with valid stored pointers). -/
theorem claim8_proof_panics :
    (∀ (σ : Commitment.Store) (version : Nat) (root : Mssmt.Node)
        (k1 k2 : Bytes),
        (Commitment.NewTaroCommitmentWithRoot version root).Proof σ k1 k2 =
          Commitment.POut.panicked) ∧
      (∀ (σ : Commitment.Store) (c : Commitment.TaroCommitment)
          (t : List (Bytes × Mssmt.LeafNode)) (m : List (Bytes × Nat))
          (k1 k2 : Bytes),
          c.tree = some t → c.assetCommitments = some m →
          (∀ e ∈ m, e.2 < σ.length) →
          c.Proof σ k1 k2 ≠ Commitment.POut.panicked) := by
  constructor
  · intro σ version root k1 k2
    rfl
  · intro σ c t m k1 k2 h3 h4 hv
    simp only [Commitment.TaroCommitment.Proof, h3, h4]
    cases hl : lookupAssoc m k1 with
    | none => simp [hl]
    | some aid =>
        have hmem := lookupAssoc_mem m k1 aid hl
        have hlt : aid < σ.length := hv _ hmem
        cases hr : Commitment.readAC σ aid with
        | none =>
            exfalso
            unfold Commitment.readAC at hr
            have hge := List.get?_eq_none.mp hr
            omega
        | some ac =>
            simp only [hl, hr]
            exact fun h => Commitment.POut.noConfusion h

/-- Witness for C8's non-panic part at a concrete full commitment. -/
theorem claim8_witness :
    c8w.tree = some [] ∧ c8w.assetCommitments = some [] ∧
      c8w.Proof [] [] [] ≠ Commitment.POut.panicked :=
  ⟨rfl, rfl,
    claim8_proof_panics.2 [] c8w [] [] [] [] rfl rfl (by decide)⟩

/-- C4: for every well-formed full TaroCommitment with at least one asset
commitment, the deep copy rebuilt from the copied asset commitments has the
same tapscript leaf: the version byte, root hash and root sum all survive
the copy. -/
theorem claim4_copy_tapLeaf (σ : Commitment.Store)
    (c : Commitment.TaroCommitment) (m : List (Bytes × Nat))
    (h : Commitment.WFFull σ c) (hm : c.assetCommitments = some m)
    (hne : m ≠ []) :
    ∃ σ2 c2, c.Copy σ = (σ2, some c2) ∧ c2.TapLeaf = c.TapLeaf := by
  obtain ⟨m2, vals, hm2, hread, htree, hroot, hver⟩ := h
  rw [hm] at hm2
  obtain rfl := Option.some.inj hm2
  have hra := readAll_append_fresh vals σ
  have hlen := freshIds_length vals.length σ.length
  have hcopy : c.Copy σ =
      (σ ++ vals,
       Commitment.NewTaroCommitment (σ ++ vals)
         (Commitment.freshIds σ.length vals.length)) := by
    unfold Commitment.TaroCommitment.Copy
    simp only [hm]
    rw [if_neg hne]
    simp only [hread]
  unfold Commitment.NewTaroCommitment at hcopy
  simp only [hra] at hcopy
  refine ⟨σ ++ vals, _, hcopy, ?_⟩
  simp only [Commitment.TaroCommitment.TapLeaf,
    foldl_zip_max _ vals hlen, foldl_zip_tree _ vals hlen, hver, hroot]

/-- Witness for C4 at a concrete store and single-commitment state. -/
theorem claim4_witness :
    Commitment.WFFull σ4w c4w ∧ c4w.assetCommitments = some m4w ∧
      m4w ≠ [] ∧
      ∃ σ2 c2, c4w.Copy σ4w = (σ2, some c2) ∧ c2.TapLeaf = c4w.TapLeaf :=
  ⟨⟨m4w, [ac4w], rfl, rfl, rfl, rfl, rfl⟩, rfl, by decide,
    claim4_copy_tapLeaf σ4w c4w m4w
      ⟨m4w, [ac4w], rfl, rfl, rfl, rfl, rfl⟩ rfl (by decide)⟩

/-- C10: `Merge` never mutates the argument commitment: for two full
commitments whose stored asset-commitment pointers are valid and disjoint
(the receiver and the argument do not alias an inner commitment), every
asset commitment reachable from the argument reads back unchanged from the
store after the call, whether `Merge` succeeds, errors, or panics.  The
argument's own fields (tree root and map) are immutable values here, so only
the store contents can change, and they do not. -/
theorem claim10_merge_frame (σ : Commitment.Store)
    (c other : Commitment.TaroCommitment)
    (ct ot : List (Bytes × Mssmt.LeafNode)) (cm om : List (Bytes × Nat))
    (_hct : c.tree = some ct) (_hot : other.tree = some ot)
    (hcm : c.assetCommitments = some cm)
    (hom : other.assetCommitments = some om)
    (hbound : ∀ e ∈ om, e.2 < σ.length)
    (hdisj : ∀ e ∈ om, ∀ e2 ∈ cm, e.2 ≠ e2.2) :
    ∀ e ∈ om,
      Commitment.readAC (Commitment.TaroCommitment.Merge σ c other).1 e.2 =
        Commitment.readAC σ e.2 := by
  intro e he
  unfold Commitment.TaroCommitment.Merge
  simp only [hom]
  by_cases hnil : om = []
  · rw [if_pos hnil]
  · rw [if_neg hnil]
    refine mergeLoop_frame om σ c e.2 (hbound e he) ?_
    intro m hm e2 he2
    rw [hcm] at hm
    obtain rfl := Option.some.inj hm
    exact Ne.symm (hdisj e he e2 he2)

/-- Witness for C10 at a concrete store and disjoint pair of commitments. -/
theorem claim10_witness :
    Commitment.readAC
        (Commitment.TaroCommitment.Merge σ10w c10c c10o).1 1 =
      Commitment.readAC σ10w 1 :=
  claim10_merge_frame σ10w c10c c10o [] [] [(acA.taroCommitmentKey, 0)]
    [(acB.taroCommitmentKey, 1)] rfl rfl rfl rfl (by decide) (by decide)
    (acB.taroCommitmentKey, 1) (List.mem_singleton.mpr rfl)

/-- C5: the MS-SMT leaf node built from a universe leaf carries the raw proof
bytes as its value, and its sum is the leaf amount when the asset is a
genesis asset or the leaf is a burn, and exactly 1 otherwise. -/
theorem claim5_smtLeafNode (m : Univ.Leaf) :
    m.SmtLeafNode.value = m.rawProof ∧
      m.SmtLeafNode.sum =
        (if m.asset.isGenesisAsset || m.isBurn then m.amt else 1) := by
  cases hg : m.asset.isGenesisAsset <;> cases hb : m.isBurn <;>
    simp [Univ.Leaf.SmtLeafNode, hg, hb]

/-- C6: `Proof.VerifyRoot` succeeds exactly when the root reconstructed from
the leaf, leaf key and inclusion proof equals the expected root and the
carried universe root also equals it. -/
theorem claim6_verifyRoot_iff (p : Univ.Proof) (r : Mssmt.Node) :
    p.VerifyRoot r = true ↔
      (Mssmt.proofRoot p.universeInclusionProof p.leafKey.UniverseKey
          p.leaf.SmtLeafNode = r ∧ p.universeRoot = r) := by
  unfold Univ.Proof.VerifyRoot
  simp only [Bool.and_eq_true, isEqualNode_iff]
  tauto

/-- C7: a pre-signed parcel's package enters the machine at
`SendStateAnchorSign`; an address parcel's package enters at
`SendStateVirtualCommitmentSelect`, which is the first state (value 0) of the
nine-state order. -/
theorem claim7_entry_states :
    (∀ p : Freighter.PreSignedParcel,
        p.pkg.sendState = Freighter.SendState.anchorSign) ∧
      (∀ p : Freighter.AddressParcel,
        p.pkg.sendState = Freighter.SendState.virtualCommitmentSelect) ∧
      Freighter.SendState.toNat Freighter.SendState.virtualCommitmentSelect
          = 0 ∧
      (∀ s : Freighter.SendState, s.toNat < 9) := by
  refine ⟨fun _ => rfl, fun _ => rfl, rfl, fun s => ?_⟩
  cases s <;> decide

/-- C9: validating any non-nil asset against a universe identifier whose
proof type is neither issuance nor transfer always fails, because the proof
type derived from an asset is always issuance or transfer. -/
theorem claim9_validate_fails (a : Univ.Asset) (id : Univ.Identifier)
    (h1 : id.proofType ≠ Univ.ProofType.issuance)
    (h2 : id.proofType ≠ Univ.ProofType.transfer) :
    ∃ e, Univ.ValidateProofUniverseType (some a) id = some e := by
  unfold Univ.ValidateProofUniverseType Univ.NewProofTypeFromAsset
  cases hg : a.isGenesisAsset
  · exact ⟨Univ.UErr.proofTypeMismatch Univ.ProofType.transfer id.proofType,
      by simp [hg, Ne.symm h2]⟩
  · exact ⟨Univ.UErr.proofTypeMismatch Univ.ProofType.issuance id.proofType,
      by simp [hg, Ne.symm h1]⟩

/-- Witness for C9 at a concrete non-genesis asset and burn identifier. -/
theorem claim9_witness :
    (id9w.proofType ≠ Univ.ProofType.issuance) ∧
      (id9w.proofType ≠ Univ.ProofType.transfer) ∧
      ∃ e, Univ.ValidateProofUniverseType (some a9w) id9w = some e :=
  ⟨by decide, by decide, claim9_validate_fails a9w id9w (by decide) (by decide)⟩

end TaroSpec
